import Mathlib

/-!
Verification of the meeting-summarizer watcher/pipeline (`meeting_summary.py`).

The program is embedded shallowly: paths and texts are `List Char`, the
filesystem is an association list from paths to file contents, and the
remote service, the audio extractor and the clock are oracles supplied in
an environment record.  Each Lean definition mirrors the corresponding
Python function or library routine (POSIX `os.path` semantics,
`str.replace`, `str.strip`, `str.lower`).
-/

namespace MeetingSummary

/-- Texts and filesystem paths, as lists of characters. -/
abbrev Str := List Char

/-! ### Python string and `os.path` primitives -/

/-- ASCII fragment of `str.lower` applied to one character. -/
def pyLowerChar (c : Char) : Char :=
  if 'A' ≤ c ∧ c ≤ 'Z' then Char.ofNat (c.toNat + 32) else c

/-- `str.lower` (ASCII fragment, applied characterwise). -/
def pyLower (s : Str) : Str := s.map pyLowerChar

/-- The characters `str.strip()` removes (ASCII whitespace). -/
def isPySpace (c : Char) : Bool :=
  c = ' ' || c = '\t' || c = '\n' || c = '\x0b' || c = '\x0c' || c = '\r'

/-- `str.strip()`: drop whitespace from both ends. -/
def pyStrip (s : Str) : Str :=
  ((s.dropWhile isPySpace).reverse.dropWhile isPySpace).reverse

/-- Index of the last occurrence of `c` in `s` (`str.rfind` for one
character, with `none` for "not found"). -/
def lastIndexOf (s : Str) (c : Char) : Option Nat :=
  (List.range s.length).foldl
    (fun acc i => if s.getD i ' ' = c then some i else acc) none

/-- `os.path.splitext` (POSIX): split at the last dot that lies after the
last slash, unless every character between that slash and the dot is a
dot (leading dots of the basename do not start an extension). -/
def splitext (p : Str) : Str × Str :=
  match lastIndexOf p '.' with
  | none => (p, [])
  | some di =>
    let si : Int := match lastIndexOf p '/' with
      | none => -1
      | some j => (j : Int)
    if si < (di : Int) then
      if (List.range' (si + 1).toNat (di - (si + 1).toNat)).all
          (fun i => p.getD i ' ' = '.') then
        (p, [])
      else
        (p.take di, p.drop di)
    else
      (p, [])

/-- `os.path.basename` (POSIX): everything after the last slash. -/
def basename (p : Str) : Str :=
  match lastIndexOf p '/' with
  | none => p
  | some j => p.drop (j + 1)

/-- Drop trailing slashes (`str.rstrip('/')`). -/
def rstripSlash (s : Str) : Str :=
  (s.reverse.dropWhile (fun c => c = '/')).reverse

/-- `os.path.dirname` (POSIX): the prefix up to and including the last
slash; if that head is neither empty nor all slashes, trailing slashes
are stripped. -/
def dirname (p : Str) : Str :=
  let i : Nat := match lastIndexOf p '/' with
    | none => 0
    | some j => j + 1
  let head := p.take i
  if head ≠ [] ∧ ¬ (head.all (fun c => c = '/')) then rstripSlash head
  else head

/-- `os.path.join a b` (POSIX, two arguments). -/
def joinPath (a b : Str) : Str :=
  if b.head? = some '/' then b
  else if a = [] ∨ a.getLast? = some '/' then a ++ b
  else a ++ '/' :: b

/-- `str.replace` for an empty pattern: the replacement is inserted
before every character and at the end. -/
def replaceEmptyPat (new : Str) : Str → Str
  | [] => new
  | c :: rest => new ++ c :: replaceEmptyPat new rest

/-- Work loop of `str.replace` for a nonempty pattern: replace
non-overlapping occurrences left to right.  `fuel` bounds the recursion
and is never exhausted when it starts at the length of the subject. -/
def replaceCore (old new : Str) : Nat → Str → Str
  | _, [] => []
  | 0, s => s
  | fuel + 1, c :: rest =>
    if old.isPrefixOf (c :: rest) then
      new ++ replaceCore old new fuel (List.drop (old.length - 1) rest)
    else
      c :: replaceCore old new fuel rest

/-- Python `s.replace(old, new)` (all occurrences). -/
def pyReplace (s old new : Str) : Str :=
  if old = [] then replaceEmptyPat new s
  else replaceCore old new s.length s

/-- Modelled from the spec of claim C10 only: replacement of just the
first occurrence of a nonempty pattern (what the claim says the code
computes).  This is spec-side; the code-side function is `pyReplace`. -/
def replaceFirstCore (old new : Str) : Nat → Str → Str
  | _, [] => []
  | 0, s => s
  | fuel + 1, c :: rest =>
    if old.isPrefixOf (c :: rest) then
      new ++ List.drop (old.length - 1) rest
    else
      c :: replaceFirstCore old new fuel rest

/-- Spec-side "replace the first occurrence" (claim C10's wording). -/
def replaceFirst (s old new : Str) : Str :=
  if old = [] then new ++ s
  else replaceFirstCore old new s.length s

/-! ### Decimal formatting (`time.strftime('%Y-%m-%d %H:%M:%S')`) -/

/-- Decimal digits of `n`, most significant first (`fuel`-bounded). -/
def natDigitsAux : Nat → Nat → List Nat
  | 0, _ => []
  | fuel + 1, n =>
    if n < 10 then [n]
    else natDigitsAux fuel (n / 10) ++ [n % 10]

/-- Decimal rendering of a natural number. -/
def natToStr (n : Nat) : Str :=
  (natDigitsAux (n + 1) n).map (fun d => Char.ofNat (48 + d))

/-- Two-digit zero padding (`%m`, `%d`, `%H`, `%M`, `%S`). -/
def pad2 (n : Nat) : Str :=
  if n < 10 then '0' :: natToStr n else natToStr n

/-- A clock reading, as captured when `save_summary` runs. -/
structure Tm where
  year : Nat
  month : Nat
  day : Nat
  hour : Nat
  minute : Nat
  second : Nat

/-- `time.strftime('%Y-%m-%d %H:%M:%S')`. -/
def strftimeYmdHms (t : Tm) : Str :=
  natToStr t.year ++ '-' :: pad2 t.month ++ '-' :: pad2 t.day
    ++ ' ' :: pad2 t.hour ++ ':' :: pad2 t.minute ++ ':' :: pad2 t.second

/-! ### Filesystem model -/

/-- The filesystem: an association list from paths to file contents.
The entry written most recently for a path comes first. -/
abbrev FS := List (Str × Str)

/-- Look a path up (first matching entry wins). -/
def fsLookup (fs : FS) (p : Str) : Option Str :=
  match fs with
  | [] => none
  | (q, c) :: rest => if q = p then some c else fsLookup rest p

/-- `os.path.exists`. -/
def fsExists (fs : FS) (p : Str) : Bool :=
  (fsLookup fs p).isSome

/-- Create or overwrite a file (`open(path, "w")` followed by writes). -/
def fsWrite (fs : FS) (p c : Str) : FS :=
  (p, c) :: fs

/-- `os.remove`. -/
def fsRemove (fs : FS) (p : Str) : FS :=
  match fs with
  | [] => []
  | (q, c) :: rest => if q = p then fsRemove rest p else (q, c) :: fsRemove rest p

/-! ### Configuration -/

/-- `SUPPORTED_FORMATS` from the source. -/
def SUPPORTED_FORMATS : List Str :=
  [".mp4".data, ".mkv".data, ".avi".data, ".mov".data, ".webm".data]

/-! ### Oracles for the external world

The remote generative service, `moviepy`, and the clock are external
dependencies.  One pipeline run consumes one reading of each, recorded in
an `Env`.  An `Except` value with `.error m` models the underlying call
raising an exception with message `m`. -/

/-- Outcome of `extract_audio`'s interaction with `tempfile`/`moviepy`:
either it returns the temporary path, or it raises.  When it raises after
`NamedTemporaryFile` has already created the file on disk (for example
`write_audiofile` failing on a video with no audio stream), the created
path is recorded in `allocated`. -/
inductive ExtractResult
  | ok (audio_path : Str)
  | fail (allocated : Option Str) (msg : Str)

/-- One run's readings of all external dependencies. -/
structure Env where
  extract : ExtractResult
  /-- `genai.upload_file`: an opaque handle on success. -/
  upload : Except Str Unit
  /-- transcription `generate_content`: the call may raise; a delivered
  response is `none` when falsy or without a usable `text`. -/
  transcribe : Except Str (Option Str)
  /-- summarization `generate_content`, same shape. -/
  summarize : Except Str (Option Str)
  /-- `open`/`write` failure inside `save_summary`, if any. -/
  saveErr : Option Str
  /-- clock reading taken by `save_summary`. -/
  time : Tm

/-! ### The processing functions (`meeting_summary.py` lines 61-141) -/

/-- `transcribe_audio` (lines 81-91): raise if the call failed, if the
response is falsy or has no text, or if the text is empty; otherwise
return the stripped text. -/
def transcribe_audio (call : Except Str (Option Str)) : Except Str Str :=
  match call with
  | .error m => .error m
  | .ok none => .error "No transcription received".data
  | .ok (some t) =>
    if t = [] then .error "No transcription received".data
    else .ok (pyStrip t)

/-- `summarize_text` (lines 94-126): raise if the call failed or the
response is falsy, lacks `text`, or strips to empty; otherwise strip the
text and delete the occurrences of `**`, then of `##`. -/
def summarize_text (call : Except Str (Option Str)) : Except Str Str :=
  match call with
  | .error m => .error m
  | .ok none => .error "No summary generated.".data
  | .ok (some t) =>
    if pyStrip t = [] then .error "No summary generated.".data
    else .ok (pyReplace (pyReplace (pyStrip t) "**".data []) "##".data [])

/-- The output path `save_summary` writes to (line 131-133). -/
def save_summary_path (video_path : Str) : Str :=
  joinPath (dirname video_path)
    ((splitext (basename video_path)).1 ++ "_summary.html".data)

/-- The file content `save_summary` writes (lines 135-138): title line,
`**Generated:**` timestamp line, then the summary verbatim. -/
def save_summary_content (summary video_path : Str) (t : Tm) : Str :=
  "# Meeting Summary: ".data ++ (splitext (basename video_path)).1
    ++ "\n\n".data
    ++ "**Generated:** ".data ++ strftimeYmdHms t ++ "\n\n".data
    ++ summary

/-- `save_summary` (lines 129-141): write the content to the output path
(overwriting whatever is there) and return the output path. -/
def save_summary (summary video_path : Str) (t : Tm) (fs : FS) : Str × FS :=
  let output_path := save_summary_path video_path
  (output_path, fsWrite fs output_path (save_summary_content summary video_path t))

/-! ### `process_video` (lines 144-176) -/

/-- The candidate path of the skip check (lines 152-156):
`video_path.replace(os.path.splitext(video_path)[1], "_summary.md")`. -/
def check_existing_path (video_path : Str) : Str :=
  pyReplace video_path (splitext video_path).2 "_summary.md".data

/-- State of `process_video`'s `try` block when it is left: filesystem,
the local variable `audio_path` (`none` until `extract_audio` returns),
whether an exception was raised (`.error` with its message), and whether
the run short-circuited at the skip check. -/
structure BodyResult where
  fs : FS
  audio_path : Option Str
  outcome : Except Str Unit
  skipped : Bool

/-- The `try` block of `process_video` (lines 151-168). -/
def runBody (env : Env) (video_path : Str) (fs : FS) : BodyResult :=
  let summary_path := check_existing_path video_path
  if fsExists fs summary_path then ⟨fs, none, .ok (), true⟩
  else
    match env.extract with
    | .fail none m => ⟨fs, none, .error m, false⟩
    | .fail (some tmp) m => ⟨fsWrite fs tmp [], none, .error m, false⟩
    | .ok audio_path =>
      let fs1 := fsWrite fs audio_path []
      match env.upload with
      | .error m => ⟨fs1, some audio_path, .error m, false⟩
      | .ok _ =>
        match transcribe_audio env.transcribe with
        | .error m => ⟨fs1, some audio_path, .error m, false⟩
        | .ok _transcript =>
          match summarize_text env.summarize with
          | .error m => ⟨fs1, some audio_path, .error m, false⟩
          | .ok summary =>
            match env.saveErr with
            | some m => ⟨fs1, some audio_path, .error m, false⟩
            | none =>
              ⟨(save_summary summary video_path env.time fs1).2,
                some audio_path, .ok (), false⟩

/-- What one `process_video` call leaves behind: the filesystem, the
paths deleted by the `finally` block (in order), the error print of the
`except` block (file name and message), and whether the run skipped. -/
structure RunResult where
  fs : FS
  removed : List Str
  errorLog : Option (Str × Str)
  skipped : Bool

/-- `process_video` (lines 144-176): run the `try` body; any exception is
caught and logged with the file's basename; the `finally` block deletes
the temporary audio file if the local `audio_path` is truthy and the file
exists.  The function always returns normally. -/
def process_video (env : Env) (video_path : Str) (fs : FS) : RunResult :=
  let b := runBody env video_path fs
  let cleanup : FS × List Str :=
    match b.audio_path with
    | some a =>
      if a ≠ [] ∧ fsExists b.fs a = true then (fsRemove b.fs a, [a])
      else (b.fs, [])
    | none => (b.fs, [])
  { fs := cleanup.1
    removed := cleanup.2
    errorLog :=
      match b.outcome with
      | .error m => some (basename video_path, m)
      | .ok _ => none
    skipped := b.skipped }

/-! ### The watcher (`MeetingRecordingHandler`, lines 182-221) -/

/-- A `watchdog` file-creation event. -/
structure Event where
  is_directory : Bool
  src_path : Str

/-- `set.add` on the in-flight set. -/
def insertPath (s : List Str) (p : Str) : List Str :=
  if p ∈ s then s else p :: s

/-- `set.discard` on the in-flight set. -/
def erasePath : List Str → Str → List Str
  | [], _ => []
  | q :: rest, p => if q = p then erasePath rest p else q :: erasePath rest p

/-- One complete sequential execution of `on_created` (lines 188-216):
directory guard, extension guard, duplicate guard, then add the path,
run the pipeline, and discard the path in a `finally` block.  Returns
the in-flight set, the filesystem, and whether the pipeline ran. -/
def on_created (processing : List Str) (event : Event) (env : Env) (fs : FS) :
    List Str × FS × Bool :=
  if event.is_directory then (processing, fs, false)
  else
    let file_path := event.src_path
    let file_ext := pyLower (splitext file_path).2
    if file_ext ∉ SUPPORTED_FORMATS then (processing, fs, false)
    else if file_path ∈ processing then (processing, fs, false)
    else
      let processing1 := insertPath processing file_path
      let r := process_video env file_path fs
      (erasePath processing1 file_path, r.fs, true)

/-! ### Interleaved executions of `on_created`

To talk about concurrent deliveries of creation events, `on_created` is
additionally atomized into a small-step machine.  A thread stands for one
handler invocation whose event already passed the directory and extension
guards (those guards read no shared state).  Its atomic steps against the
shared in-flight set are: the membership test of line 201 (`check`, which
either ignores the event or proceeds towards the 5-second sleep), the
`add` of line 211 immediately followed by entering `process_video`
(`add`), and the `finally` discard of line 216 (`finish`). -/

/-- Program counter of one handler invocation. -/
inductive HandlerPC
  | check
  | sleeping
  | running
  | finished
  | ignored
deriving DecidableEq

/-- One handler invocation: its event path and where it is. -/
structure HandlerThread where
  path : Str
  pc : HandlerPC
deriving DecidableEq

/-- Shared state: the in-flight set and every handler invocation. -/
structure WatcherState where
  processing : List Str
  threads : List HandlerThread
deriving DecidableEq

/-- A scheduler choice: which thread takes its next atomic step. -/
inductive HandlerAct
  | check (i : Nat)
  | add (i : Nat)
  | finish (i : Nat)

/-- One atomic step; `none` when the chosen thread cannot take it. -/
def stepAct (s : WatcherState) : HandlerAct → Option WatcherState
  | .check i =>
    match s.threads[i]? with
    | some ⟨p, .check⟩ =>
      some { s with
        threads := s.threads.set i
          ⟨p, if p ∈ s.processing then .ignored else .sleeping⟩ }
    | _ => none
  | .add i =>
    match s.threads[i]? with
    | some ⟨p, .sleeping⟩ =>
      some ⟨insertPath s.processing p, s.threads.set i ⟨p, .running⟩⟩
    | _ => none
  | .finish i =>
    match s.threads[i]? with
    | some ⟨p, .running⟩ =>
      some ⟨erasePath s.processing p, s.threads.set i ⟨p, .finished⟩⟩
    | _ => none

/-- Run a schedule from a state; `none` if some step is impossible. -/
def runActs (s : WatcherState) : List HandlerAct → Option WatcherState
  | [] => some s
  | a :: rest =>
    match stepAct s a with
    | some s' => runActs s' rest
    | none => none

/-- The path of invocation `i` when it is inside `process_video`. -/
def runningPath? (s : WatcherState) (i : Nat) : Option Str :=
  match s.threads[i]? with
  | some ⟨p, .running⟩ => some p
  | _ => none

/-- Two distinct handler invocations are inside `process_video` for the
same path. -/
def twoRunningSame (s : WatcherState) : Bool :=
  (List.range s.threads.length).any fun i =>
    (List.range s.threads.length).any fun j =>
      decide (i ≠ j) &&
        decide (runningPath? s i = runningPath? s j ∧ (runningPath? s i).isSome)

/-- A thread that is past its membership test but not yet done:
it is sleeping (inside the 5-second wait) or running the pipeline. -/
def isMid (pc : HandlerPC) : Prop := pc = .sleeping ∨ pc = .running

instance (pc : HandlerPC) : Decidable (isMid pc) := by
  unfold isMid; infer_instance

/-- No handler invocation is mid-flight. -/
def NoMid (s : WatcherState) : Prop :=
  ∀ (i : Nat) (t : HandlerThread), s.threads[i]? = some t → ¬ isMid t.pc

/-- At most one handler invocation is mid-flight. -/
def AtMostOneMid (s : WatcherState) : Prop :=
  ∀ (i j : Nat) (t u : HandlerThread),
    s.threads[i]? = some t → s.threads[j]? = some u →
    isMid t.pc → isMid u.pc → i = j

/-- Reachability under serialized event delivery: a new membership test
(the entry into an `on_created` call) happens only when no other handler
invocation is mid-flight.  This is how the single `watchdog` dispatch
thread drives the handler. -/
inductive SerReach : WatcherState → WatcherState → Prop
  | refl (s : WatcherState) : SerReach s s
  | step {s t u : WatcherState} {a : HandlerAct} :
      SerReach s t → stepAct t a = some u →
      (∀ i, a = .check i → NoMid t) → SerReach s u

/-! ### Basic lemmas about the filesystem model -/

lemma fsLookup_fsWrite_self (fs : FS) (p c : Str) :
    fsLookup (fsWrite fs p c) p = some c := by
  simp [fsLookup, fsWrite]

lemma fsLookup_fsWrite_ne (fs : FS) {p q : Str} (c : Str) (h : q ≠ p) :
    fsLookup (fsWrite fs p c) q = fsLookup fs q := by
  simp [fsLookup, fsWrite, Ne.symm h]

lemma fsLookup_fsRemove_self (fs : FS) (p : Str) :
    fsLookup (fsRemove fs p) p = none := by
  induction fs with
  | nil => rfl
  | cons e rest ih =>
    obtain ⟨q, c⟩ := e
    by_cases h : q = p
    · simpa [fsRemove, h] using ih
    · simpa [fsRemove, fsLookup, h] using ih

lemma fsLookup_fsRemove_ne (fs : FS) {p q : Str} (h : q ≠ p) :
    fsLookup (fsRemove fs p) q = fsLookup fs q := by
  induction fs with
  | nil => rfl
  | cons e rest ih =>
    obtain ⟨r, c⟩ := e
    by_cases hr : r = p
    · subst hr
      simpa [fsRemove, fsLookup, Ne.symm h] using ih
    · by_cases hq : r = q
      · simp [fsRemove, fsLookup, hr, hq, h]
      · simpa [fsRemove, fsLookup, hr, hq] using ih

lemma fsExists_fsWrite_ne (fs : FS) {p q : Str} (c : Str) (h : q ≠ p) :
    fsExists (fsWrite fs p c) q = fsExists fs q := by
  simp [fsExists, fsLookup_fsWrite_ne fs c h]

/-! ### Lemmas about the string primitives -/

lemma isPrefixOf_true_iff {l₁ l₂ : Str} : l₁.isPrefixOf l₂ = true ↔ l₁ <+: l₂ := by
  simp

lemma suffix_getLast? {l s : Str} (h : l <:+ s) (hne : l ≠ []) :
    s.getLast? = l.getLast? := by
  obtain ⟨t, rfl⟩ := h
  exact List.getLast?_append_of_ne_nil t hne

/-- The extension returned by `splitext` is a suffix of the path. -/
lemma splitext_snd_suffix (p : Str) : (splitext p).2 <:+ p := by
  unfold splitext
  cases h : lastIndexOf p '.' with
  | none => exact ⟨p, by simp⟩
  | some di =>
    dsimp only
    split
    · split
      · exact ⟨p, by simp⟩
      · exact List.drop_suffix di p
    · exact ⟨p, by simp⟩

/-- `joinPath` always ends with its second component. -/
lemma joinPath_snd_suffix (a b : Str) : b <:+ joinPath a b := by
  unfold joinPath
  split
  · exact ⟨[], rfl⟩
  · split
    · exact List.suffix_append a b
    · exact ⟨a ++ ['/'], by simp⟩

/-! ### Self-overlap-free patterns and `str.replace` -/

/-- No nonempty proper suffix of `l` is also one of its prefixes. -/
def OverlapFree (l : Str) : Prop :=
  ∀ k : Nat, l.drop k <+: l → k = 0 ∨ l.length ≤ k

/-- Executable check for `OverlapFree`. -/
def overlapFreeB (l : Str) : Bool :=
  (List.range l.length).all fun k => k == 0 || ! (l.drop k).isPrefixOf l

lemma overlapFree_of_b {l : Str} (h : overlapFreeB l = true) : OverlapFree l := by
  intro k hk
  rcases Nat.lt_or_ge k l.length with hlt | hge
  · left
    have h2 := List.all_eq_true.mp h k (List.mem_range.mpr hlt)
    rcases Bool.or_eq_true_iff.mp h2 with h0 | hB
    · simpa using h0
    · have hfalse : (l.drop k).isPrefixOf l = false := by simpa using hB
      rw [isPrefixOf_true_iff.mpr hk] at hfalse
      simp at hfalse
  · exact Or.inr hge

lemma overlapFree_of_map (f : Char → Char) {l : Str} (h : OverlapFree (l.map f)) :
    OverlapFree l := by
  intro k hk
  have hk' : (l.map f).drop k <+: l.map f := by
    obtain ⟨t, ht⟩ := hk
    refine ⟨t.map f, ?_⟩
    rw [← List.map_drop, ← List.map_append, ht]
  rcases h k hk' with h0 | hlen
  · exact Or.inl h0
  · exact Or.inr (by simpa using hlen)

/-- A supported extension (after lowering) is nonempty and
self-overlap-free. -/
lemma supported_ext_props {e : Str} (h : pyLower e ∈ SUPPORTED_FORMATS) :
    e ≠ [] ∧ OverlapFree e := by
  have hmap : ∃ x ∈ SUPPORTED_FORMATS, e.map pyLowerChar = x := ⟨pyLower e, h, rfl⟩
  obtain ⟨x, hx, hex⟩ := hmap
  constructor
  · intro hnil
    subst hnil
    simp only [List.map_nil] at hex
    subst hex
    revert hx
    decide
  · apply overlapFree_of_map pyLowerChar
    rw [hex]
    fin_cases hx <;> exact overlapFree_of_b (by decide)

lemma replaceCore_nil (old new : Str) (fuel : Nat) :
    replaceCore old new fuel [] = [] := by
  cases fuel <;> rfl

lemma replaceCore_cons (old new : Str) (fuel : Nat) (c : Char) (rest : Str) :
    replaceCore old new (fuel + 1) (c :: rest) =
      if old.isPrefixOf (c :: rest) then
        new ++ replaceCore old new fuel (List.drop (old.length - 1) rest)
      else
        c :: replaceCore old new fuel rest := rfl

/-- If the nonempty, self-overlap-free pattern `old` is a suffix of `s`,
then replacing all occurrences of `old` by `new` yields a string ending
with `new`. -/
lemma replaceCore_suffix {old new : Str} (h0 : old ≠ []) (hof : OverlapFree old) :
    ∀ fuel s, s.length ≤ fuel → old <:+ s →
      new <:+ replaceCore old new fuel s := by
  intro fuel
  induction fuel with
  | zero =>
    intro s hlen hsuf
    have hs : s = [] := List.length_eq_zero.mp (Nat.le_zero.mp hlen)
    subst hs
    obtain ⟨t, ht⟩ := hsuf
    exact absurd (List.append_eq_nil.mp ht).2 h0
  | succ fuel ih =>
    intro s hlen hsuf
    obtain ⟨t, rfl⟩ := hsuf
    cases t with
    | nil =>
      obtain ⟨c, tl, rfl⟩ := List.exists_cons_of_ne_nil h0
      rw [List.nil_append,
        replaceCore_cons, if_pos (isPrefixOf_true_iff.mpr ⟨[], by simp⟩)]
      have hdrop : List.drop ((c :: tl).length - 1) tl = [] := by simp
      rw [hdrop, replaceCore_nil]
      exact ⟨[], by simp⟩
    | cons a t' =>
      rw [List.cons_append, replaceCore_cons]
      by_cases hp : old <+: a :: (t' ++ old)
      · rw [if_pos (isPrefixOf_true_iff.mpr hp)]
        obtain ⟨u, hu⟩ := hp
        have hlold : 1 ≤ old.length := by
          cases old with
          | nil => exact absurd rfl h0
          | cons _ _ => simp
        have hdrop_eq : List.drop (old.length - 1) (t' ++ old) = u := by
          have h1 : List.drop old.length (a :: (t' ++ old)) = u := by
            rw [← hu, List.drop_left]
          rw [← h1]
          cases hn : old.length with
          | zero => omega
          | succ k => simp [hn]
        rw [hdrop_eq]
        have hulen : u.length = t'.length + 1 := by
          have := congrArg List.length hu
          simp at this
          omega
        rcases Nat.lt_or_ge (t'.length + 1) old.length with hklt | hkge
        · exfalso
          have hR : List.drop (t'.length + 1) (a :: (t' ++ old)) = old := by
            have hsplit : a :: (t' ++ old) = (a :: t') ++ old := by simp
            rw [hsplit, List.drop_left' (by simp)]
          have hL : List.drop (t'.length + 1) (old ++ u) =
              List.drop (t'.length + 1) old ++ u := by
            rw [List.drop_append_eq_append_drop]
            have hz : t'.length + 1 - old.length = 0 := by omega
            rw [hz, List.drop_zero]
          have hpre2 : old.drop (t'.length + 1) <+: old :=
            ⟨u, by rw [← hL, hu, hR]⟩
          rcases hof (t'.length + 1) hpre2 with h0' | hlen'
          · omega
          · omega
        · have hsuf_u : old <:+ u := by
            have hR : List.drop (t'.length + 1) (a :: (t' ++ old)) = old := by
              have hsplit : a :: (t' ++ old) = (a :: t') ++ old := by simp
              rw [hsplit, List.drop_left' (by simp)]
            have hL : List.drop (t'.length + 1) (old ++ u) =
                List.drop (t'.length + 1 - old.length) u := by
              rw [List.drop_append_eq_append_drop,
                List.drop_eq_nil_of_le hkge, List.nil_append]
            have hdk : List.drop (t'.length + 1 - old.length) u = old := by
              rw [← hL, hu, hR]
            exact hdk ▸ List.drop_suffix _ u
          have hulen2 : u.length ≤ fuel := by
            simp only [List.length_cons, List.length_append] at hlen
            omega
          obtain ⟨z, hz⟩ := ih u hulen2 hsuf_u
          exact ⟨new ++ z, by rw [List.append_assoc, hz]⟩
      · rw [if_neg (fun hb => hp (isPrefixOf_true_iff.mp hb))]
        have hrlen : (t' ++ old).length ≤ fuel := by
          simp only [List.length_append, List.length_cons] at hlen ⊢
          omega
        obtain ⟨z, hz⟩ := ih (t' ++ old) hrlen (List.suffix_append t' old)
        exact ⟨a :: z, by rw [List.cons_append, hz]⟩

/-- The skip-check path always ends in `_summary.md` when the video has a
supported extension. -/
lemma check_existing_path_suffix {p : Str}
    (h : pyLower (splitext p).2 ∈ SUPPORTED_FORMATS) :
    "_summary.md".data <:+ check_existing_path p := by
  obtain ⟨hne, hof⟩ := supported_ext_props h
  unfold check_existing_path pyReplace
  rw [if_neg hne]
  exact replaceCore_suffix hne hof p.length p le_rfl (splitext_snd_suffix p)

/-- The Writer's output path always ends in `_summary.html`. -/
lemma save_summary_path_suffix (p : Str) :
    "_summary.html".data <:+ save_summary_path p := by
  unfold save_summary_path
  exact (List.suffix_append _ _).trans (joinPath_snd_suffix _ _)

/-! ### Digit-count lemmas for the timestamp format -/

lemma natDigitsAux_one {fuel n : Nat} (hf : 0 < fuel) (hn : n < 10) :
    natDigitsAux fuel n = [n] := by
  cases fuel with
  | zero => omega
  | succ f => simp [natDigitsAux, hn]

lemma natDigitsAux_len_two {fuel n : Nat} (hf : 1 < fuel) (h1 : 10 ≤ n)
    (h2 : n < 100) : (natDigitsAux fuel n).length = 2 := by
  cases fuel with
  | zero => omega
  | succ f =>
    have hn : ¬ n < 10 := by omega
    rw [natDigitsAux.eq_def]
    simp only [if_neg hn]
    rw [List.length_append,
      natDigitsAux_one (show 0 < f by omega) (show n / 10 < 10 by omega)]
    rfl

lemma natDigitsAux_len_three {fuel n : Nat} (hf : 2 < fuel) (h1 : 100 ≤ n)
    (h2 : n < 1000) : (natDigitsAux fuel n).length = 3 := by
  cases fuel with
  | zero => omega
  | succ f =>
    have hn : ¬ n < 10 := by omega
    rw [natDigitsAux.eq_def]
    simp only [if_neg hn]
    rw [List.length_append,
      natDigitsAux_len_two (show 1 < f by omega) (show 10 ≤ n / 10 by omega)
        (show n / 10 < 100 by omega)]
    rfl

lemma natDigitsAux_len_four {fuel n : Nat} (hf : 3 < fuel) (h1 : 1000 ≤ n)
    (h2 : n < 10000) : (natDigitsAux fuel n).length = 4 := by
  cases fuel with
  | zero => omega
  | succ f =>
    have hn : ¬ n < 10 := by omega
    rw [natDigitsAux.eq_def]
    simp only [if_neg hn]
    rw [List.length_append,
      natDigitsAux_len_three (show 2 < f by omega) (show 100 ≤ n / 10 by omega)
        (show n / 10 < 1000 by omega)]
    rfl

lemma natToStr_len_four {n : Nat} (h1 : 1000 ≤ n) (h2 : n < 10000) :
    (natToStr n).length = 4 := by
  unfold natToStr
  rw [List.length_map]
  exact natDigitsAux_len_four (by omega) h1 h2

lemma pad2_len {n : Nat} (h : n < 100) : (pad2 n).length = 2 := by
  unfold pad2
  by_cases h10 : n < 10
  · rw [if_pos h10]
    simp [natToStr, natDigitsAux_one (show 0 < n + 1 by omega) h10]
  · rw [if_neg h10]
    unfold natToStr
    rw [List.length_map]
    exact natDigitsAux_len_two (by omega) (by omega) h

/-- The rendered timestamp has the 19 characters of
`YYYY-MM-DD HH:MM:SS`. -/
lemma strftime_len {t : Tm} (hy1 : 1000 ≤ t.year) (hy2 : t.year < 10000)
    (hm : t.month < 100) (hd : t.day < 100) (hh : t.hour < 100)
    (hmin : t.minute < 100) (hs : t.second < 100) :
    (strftimeYmdHms t).length = 19 := by
  unfold strftimeYmdHms
  simp only [List.length_append, List.length_cons,
    natToStr_len_four hy1 hy2, pad2_len hm, pad2_len hd, pad2_len hh,
    pad2_len hmin, pad2_len hs]

/-! ### No `[c, c]` survives its removal -/

/-- After `s.replace(cc, "")` with `cc` a two-character run of the same
character, the result has no occurrence of `cc` (maximal runs of `c` are
reduced below length 2). -/
lemma replaceCore_no_cc (c : Char) :
    ∀ fuel s, s.length ≤ fuel →
      ¬ ([c, c] <:+: replaceCore [c, c] [] fuel s) := by
  intro fuel
  induction fuel with
  | zero =>
    intro s hlen
    have hs : s = [] := List.length_eq_zero.mp (Nat.le_zero.mp hlen)
    subst hs
    rw [replaceCore_nil]
    rintro ⟨u, v, huv⟩
    simp at huv
  | succ fuel ih =>
    intro s hlen
    cases s with
    | nil =>
      rw [replaceCore_nil]
      rintro ⟨u, v, huv⟩
      simp at huv
    | cons a rest =>
      rw [replaceCore_cons]
      by_cases hp : [c, c] <+: a :: rest
      · rw [if_pos (isPrefixOf_true_iff.mpr hp)]
        obtain ⟨u, hu⟩ := hp
        have hu' : c :: c :: u = a :: rest := by simpa using hu
        injection hu' with h1 h2
        subst h1
        subst h2
        have hd : List.drop (([c, c] : Str).length - 1) (c :: u) = u := by simp
        rw [hd, List.nil_append]
        apply ih u
        simp only [List.length_cons] at hlen
        omega
      · rw [if_neg (fun hb => hp (isPrefixOf_true_iff.mp hb))]
        rintro ⟨u, v, huv⟩
        cases u with
        | cons d u' =>
          injection huv with h1 h2
          exact ih rest (by simp only [List.length_cons] at hlen; omega)
            ⟨u', v, h2⟩
        | nil =>
          simp only [List.nil_append] at huv
          injection huv with h1 h2
          subst h1
          cases rest with
          | nil =>
            rw [replaceCore_nil] at h2
            simp at h2
          | cons b rest2 =>
            have hb : b ≠ c := by
              intro hba
              subst hba
              exact hp ⟨rest2, rfl⟩
            cases fuel with
            | zero => simp only [List.length_cons] at hlen; omega
            | succ f =>
              rw [replaceCore_cons,
                if_neg (fun hbtrue => hb
                  (List.cons_prefix_cons.mp
                    (isPrefixOf_true_iff.mp hbtrue)).1.symm)] at h2
              injection h2 with h3 h4
              exact hb h3.symm

/-- No occurrence of `[c, c]` survives `pyReplace s [c, c] []`. -/
lemma pyReplace_no_cc (c : Char) (s : Str) :
    ¬ ([c, c] <:+: pyReplace s [c, c] []) := by
  unfold pyReplace
  rw [if_neg (by simp)]
  exact replaceCore_no_cc c s.length s le_rfl

/-! ### Lemmas about the watcher machine -/

lemma mem_insertPath_self (s : List Str) (p : Str) : p ∈ insertPath s p := by
  unfold insertPath
  split
  · assumption
  · exact List.mem_cons_self p s

lemma not_mem_erasePath (s : List Str) (p : Str) : p ∉ erasePath s p := by
  induction s with
  | nil => simp [erasePath]
  | cons q rest ih =>
    unfold erasePath
    by_cases h : q = p
    · rw [if_pos h]
      exact ih
    · rw [if_neg h]
      intro hmem
      rcases List.mem_cons.mp hmem with h1 | h2
      · exact h h1.symm
      · exact ih h2

lemma lt_length_of_getElem?_some {α : Type} {l : List α} {i : Nat} {a : α}
    (h : l[i]? = some a) : i < l.length := by
  by_contra hcon
  rw [List.getElem?_eq_none (Nat.le_of_not_lt hcon)] at h
  cases h

lemma stepAct_check_inv {s s' : WatcherState} {i : Nat}
    (h : stepAct s (.check i) = some s') :
    ∃ p, s.threads[i]? = some ⟨p, .check⟩ ∧
      s'.processing = s.processing ∧
      s'.threads = s.threads.set i
        ⟨p, if p ∈ s.processing then .ignored else .sleeping⟩ := by
  simp only [stepAct] at h
  cases hth : s.threads[i]? with
  | none => rw [hth] at h; exact Option.noConfusion h
  | some th =>
    rw [hth] at h
    obtain ⟨p, pc⟩ := th
    cases pc with
    | check =>
      refine ⟨p, rfl, ?_, ?_⟩ <;> rw [← Option.some.inj h]
    | sleeping => exact Option.noConfusion h
    | running => exact Option.noConfusion h
    | finished => exact Option.noConfusion h
    | ignored => exact Option.noConfusion h

lemma stepAct_add_inv {s s' : WatcherState} {i : Nat}
    (h : stepAct s (.add i) = some s') :
    ∃ p, s.threads[i]? = some ⟨p, .sleeping⟩ ∧
      s'.processing = insertPath s.processing p ∧
      s'.threads = s.threads.set i ⟨p, .running⟩ := by
  simp only [stepAct] at h
  cases hth : s.threads[i]? with
  | none => rw [hth] at h; exact Option.noConfusion h
  | some th =>
    rw [hth] at h
    obtain ⟨p, pc⟩ := th
    cases pc with
    | sleeping =>
      refine ⟨p, rfl, ?_, ?_⟩ <;> rw [← Option.some.inj h]
    | check => exact Option.noConfusion h
    | running => exact Option.noConfusion h
    | finished => exact Option.noConfusion h
    | ignored => exact Option.noConfusion h

lemma stepAct_finish_inv {s s' : WatcherState} {i : Nat}
    (h : stepAct s (.finish i) = some s') :
    ∃ p, s.threads[i]? = some ⟨p, .running⟩ ∧
      s'.processing = erasePath s.processing p ∧
      s'.threads = s.threads.set i ⟨p, .finished⟩ := by
  simp only [stepAct] at h
  cases hth : s.threads[i]? with
  | none => rw [hth] at h; exact Option.noConfusion h
  | some th =>
    rw [hth] at h
    obtain ⟨p, pc⟩ := th
    cases pc with
    | running =>
      refine ⟨p, rfl, ?_, ?_⟩ <;> rw [← Option.some.inj h]
    | check => exact Option.noConfusion h
    | sleeping => exact Option.noConfusion h
    | finished => exact Option.noConfusion h
    | ignored => exact Option.noConfusion h

/-- A step taken by some thread leaves every other thread's entry (and
any entry with a different program counter) unchanged. -/
lemma stepAct_ignored_stays {s s' : WatcherState} {a : HandlerAct}
    {i : Nat} {p : Str}
    (h : stepAct s a = some s') (hth : s.threads[i]? = some ⟨p, .ignored⟩) :
    s'.threads[i]? = some ⟨p, .ignored⟩ := by
  cases a with
  | check j =>
    obtain ⟨q, hq, _, hset⟩ := stepAct_check_inv h
    have hij : j ≠ i := by
      intro hji
      subst hji
      rw [hth] at hq
      cases Option.some.inj hq
    rw [hset, List.getElem?_set_ne hij]
    exact hth
  | add j =>
    obtain ⟨q, hq, _, hset⟩ := stepAct_add_inv h
    have hij : j ≠ i := by
      intro hji
      subst hji
      rw [hth] at hq
      cases Option.some.inj hq
    rw [hset, List.getElem?_set_ne hij]
    exact hth
  | finish j =>
    obtain ⟨q, hq, _, hset⟩ := stepAct_finish_inv h
    have hij : j ≠ i := by
      intro hji
      subst hji
      rw [hth] at hq
      cases Option.some.inj hq
    rw [hset, List.getElem?_set_ne hij]
    exact hth

lemma amo_preserved_set {s s' : WatcherState} {i : Nat}
    {newT : HandlerThread}
    (hthreads : s'.threads = s.threads.set i newT)
    (hAMO : AtMostOneMid s)
    (hnew : isMid newT.pc →
      ∀ (j : Nat) (u : HandlerThread),
        s.threads[j]? = some u → isMid u.pc → j = i) :
    AtMostOneMid s' := by
  intro a b t u ha hb hta htb
  rw [hthreads] at ha hb
  by_cases hai : a = i
  · by_cases hbi : b = i
    · rw [hai, hbi]
    · subst hai
      have hlt : a < s.threads.length := by
        have := lt_length_of_getElem?_some ha
        simpa using this
      rw [List.getElem?_set_self hlt] at ha
      rw [List.getElem?_set_ne (fun hba => hbi hba.symm)] at hb
      have ht_eq : newT = t := Option.some.inj ha
      exact ((hnew (ht_eq ▸ hta) b u hb htb).symm)
  · by_cases hbi : b = i
    · subst hbi
      have hlt : b < s.threads.length := by
        have := lt_length_of_getElem?_some hb
        simpa using this
      rw [List.getElem?_set_self hlt] at hb
      rw [List.getElem?_set_ne (fun hab => hai hab.symm)] at ha
      have hu_eq : newT = u := Option.some.inj hb
      exact hnew (hu_eq ▸ htb) a t ha hta
    · rw [List.getElem?_set_ne (fun hia => hai hia.symm)] at ha
      rw [List.getElem?_set_ne (fun hib => hbi hib.symm)] at hb
      exact hAMO a b t u ha hb hta htb

/-- Serialized delivery preserves "at most one handler mid-flight". -/
lemma serReach_amo {s u : WatcherState} (hreach : SerReach s u)
    (hs : AtMostOneMid s) : AtMostOneMid u := by
  induction hreach with
  | refl => exact hs
  | @step t w a hst hstep hser ih =>
    cases a with
    | check i =>
      obtain ⟨p, hth, _, hset⟩ := stepAct_check_inv hstep
      have hnomid := hser i rfl
      refine amo_preserved_set hset ih ?_
      intro _ j u' hj hu'
      exact absurd hu' (hnomid j u' hj)
    | add i =>
      obtain ⟨p, hth, _, hset⟩ := stepAct_add_inv hstep
      refine amo_preserved_set hset ih ?_
      intro _ j u' hj hu'
      exact ih j i u' ⟨p, .sleeping⟩ hj hth hu' (Or.inl rfl)
    | finish i =>
      obtain ⟨p, hth, _, hset⟩ := stepAct_finish_inv hstep
      refine amo_preserved_set hset ih ?_
      intro hmid
      rcases hmid with hmid | hmid <;> cases hmid

/-- `runningPath?` inverted. -/
lemma runningPath?_eq_some {s : WatcherState} {i : Nat} {p : Str}
    (h : runningPath? s i = some p) :
    s.threads[i]? = some ⟨p, .running⟩ := by
  unfold runningPath? at h
  cases hth : s.threads[i]? with
  | none => rw [hth] at h; exact Option.noConfusion h
  | some t =>
    rw [hth] at h
    obtain ⟨q, pc⟩ := t
    cases pc with
    | running => rw [← Option.some.inj h]
    | check => exact Option.noConfusion h
    | sleeping => exact Option.noConfusion h
    | finished => exact Option.noConfusion h
    | ignored => exact Option.noConfusion h

/-- With at most one handler mid-flight, no two concurrent runs exist. -/
lemma twoRunningSame_eq_false {s : WatcherState} (h : AtMostOneMid s) :
    twoRunningSame s = false := by
  rw [← Bool.not_eq_true]
  intro htrue
  unfold twoRunningSame at htrue
  simp only [List.any_eq_true, List.mem_range] at htrue
  obtain ⟨i, hi, j, hj, hcond⟩ := htrue
  rw [Bool.and_eq_true] at hcond
  obtain ⟨hij, hcond2⟩ := hcond
  obtain ⟨heq, hsome⟩ := of_decide_eq_true hcond2
  obtain ⟨p, hp⟩ := Option.isSome_iff_exists.mp hsome
  have hpj : runningPath? s j = some p := by rw [← heq, hp]
  exact (of_decide_eq_true hij)
    (h i j ⟨p, .running⟩ ⟨p, .running⟩ (runningPath?_eq_some hp)
      (runningPath?_eq_some hpj) (Or.inr rfl) (Or.inr rfl))

/-- A write to a path keeps every already-existing file existing. -/
lemma fsExists_fsWrite_of_exists {fs : FS} {q : Str} (p c : Str)
    (h : fsExists fs q = true) : fsExists (fsWrite fs p c) q = true := by
  by_cases hpq : q = p
  · subst hpq
    simp [fsExists, fsLookup_fsWrite_self]
  · rw [fsExists_fsWrite_ne fs c hpq]
    exact h

/-- An infix of `t` is an infix of `s ++ t`. -/
lemma infx_append_left {l t : Str} (s : Str) (h : l <:+: t) : l <:+: s ++ t := by
  obtain ⟨u, v, huv⟩ := h
  exact ⟨s ++ u, v, by rw [← huv]; simp⟩

/-- An infix of `s` is an infix of `s ++ t`. -/
lemma infx_append_right {l s : Str} (t : Str) (h : l <:+: s) : l <:+: s ++ t := by
  obtain ⟨u, v, huv⟩ := h
  exact ⟨u, v ++ t, by rw [← huv]; simp⟩

/-! ## Claims -/

/-- C1: for every video path whose (lowercased) extension is supported,
the candidate path of the skip check — the path with the extension
substring replaced by `_summary.md` — differs from the path the Writer
writes; consequently a previously written output never makes the skip
check fire, so a second run proceeds (and overwrites) instead of
skipping. -/
theorem C1_skip_never_fires (p : Str)
    (h : pyLower (splitext p).2 ∈ SUPPORTED_FORMATS) :
    check_existing_path p ≠ save_summary_path p ∧
    ∀ (fs : FS) (c : Str),
      fsExists fs (check_existing_path p) = false →
      fsExists (fsWrite fs (save_summary_path p) c)
        (check_existing_path p) = false := by
  have hmd : (check_existing_path p).getLast? = some 'd' := by
    rw [suffix_getLast? (check_existing_path_suffix h) (by decide)]
    decide
  have hhtml : (save_summary_path p).getLast? = some 'l' := by
    rw [suffix_getLast? (save_summary_path_suffix p) (by decide)]
    decide
  have hne : check_existing_path p ≠ save_summary_path p := by
    intro he
    rw [he, hhtml] at hmd
    exact absurd hmd (by decide)
  refine ⟨hne, fun fs c hex => ?_⟩
  rw [fsExists_fsWrite_ne fs c hne]
  exact hex

/-- Witness for C1 at a concrete supported video path. -/
theorem C1_skip_never_fires_witness :
    pyLower (splitext "/home/dev/Videos/meeting.mp4".data).2 ∈ SUPPORTED_FORMATS ∧
    check_existing_path "/home/dev/Videos/meeting.mp4".data
      ≠ save_summary_path "/home/dev/Videos/meeting.mp4".data :=
  ⟨by decide, (C1_skip_never_fires "/home/dev/Videos/meeting.mp4".data (by decide)).1⟩

/-- C6: `save_summary` returns exactly `<parent>/<stem>_summary.html` as
its output path; the written content is the title line, the
`**Generated:**` timestamp line (19 characters in the format
`YYYY-MM-DD HH:MM:SS`), then the summary string verbatim; whatever was
previously stored at that path is overwritten. -/
theorem C6_save_summary_spec (summary p : Str) (t : Tm) (fs : FS) :
    (save_summary summary p t fs).1
      = joinPath (dirname p)
          ((splitext (basename p)).1 ++ "_summary.html".data) ∧
    fsLookup (save_summary summary p t fs).2 (save_summary_path p)
      = some ("# Meeting Summary: ".data ++ (splitext (basename p)).1
          ++ "\n\n".data ++ "**Generated:** ".data ++ strftimeYmdHms t
          ++ "\n\n".data ++ summary) ∧
    (1000 ≤ t.year → t.year < 10000 → t.month < 100 → t.day < 100 →
      t.hour < 100 → t.minute < 100 → t.second < 100 →
      (strftimeYmdHms t).length = 19) := by
  refine ⟨rfl, ?_, fun h1 h2 h3 h4 h5 h6 h7 =>
    strftime_len h1 h2 h3 h4 h5 h6 h7⟩
  exact fsLookup_fsWrite_self _ _ _

/-- Witness for C6 at a concrete summary, path, clock reading and a
filesystem that already holds a file at the output path. -/
theorem C6_save_summary_spec_witness :
    (strftimeYmdHms ⟨2026, 10, 12, 3, 4, 5⟩).length = 19 ∧
    (save_summary "<p>ok</p>".data "/home/dev/Videos/m.mp4".data
        ⟨2026, 10, 12, 3, 4, 5⟩
        [("/home/dev/Videos/m_summary.html".data, "old".data)]).1
      = "/home/dev/Videos/m_summary.html".data :=
  ⟨(C6_save_summary_spec "<p>ok</p>".data "/home/dev/Videos/m.mp4".data
      ⟨2026, 10, 12, 3, 4, 5⟩
      [("/home/dev/Videos/m_summary.html".data, "old".data)]).2.2
      (by decide) (by decide) (by decide) (by decide) (by decide) (by decide)
      (by decide),
   by
    rw [(C6_save_summary_spec "<p>ok</p>".data "/home/dev/Videos/m.mp4".data
      ⟨2026, 10, 12, 3, 4, 5⟩
      [("/home/dev/Videos/m_summary.html".data, "old".data)]).1]
    decide⟩

/-- C7 counterexample: the claim quantifies over non-empty response
texts, but a whitespace-only (hence non-empty) response makes
`summarize_text` raise `No summary generated.` instead of returning the
stripped-and-cleaned text. -/
theorem C7_counterexample :
    ([' '] : Str) ≠ [] ∧
    summarize_text (.ok (some [' ']))
      = .error "No summary generated.".data ∧
    summarize_text (.ok (some [' ']))
      ≠ .ok (pyReplace (pyReplace (pyStrip [' ']) "**".data [])
          "##".data []) := by
  have h1 : summarize_text (.ok (some [' ']))
      = .error "No summary generated.".data := rfl
  refine ⟨by decide, h1, ?_⟩
  rw [h1]
  intro h
  exact Except.noConfusion h

/-- C7 (amended): for every response text that is non-empty after
stripping, the returned string is the stripped text with every
occurrence of `**` removed and then every occurrence of `##` removed;
this cleanup runs on every successful response. -/
theorem C7_amended_cleanup (t : Str) (h : pyStrip t ≠ []) :
    summarize_text (.ok (some t))
      = .ok (pyReplace (pyReplace (pyStrip t) "**".data [])
          "##".data []) := by
  have hred : summarize_text (.ok (some t))
      = if pyStrip t = [] then .error "No summary generated.".data
        else .ok (pyReplace (pyReplace (pyStrip t) "**".data [])
          "##".data []) := rfl
  rw [hred, if_neg h]

/-- Witness for the amended C7 at a concrete markdown-laden response. -/
theorem C7_amended_cleanup_witness :
    pyStrip " **hello** ## world ".data ≠ [] ∧
    summarize_text (.ok (some " **hello** ## world ".data))
      = .ok (pyReplace (pyReplace (pyStrip " **hello** ## world ".data)
          "**".data []) "##".data []) :=
  ⟨by decide, C7_amended_cleanup " **hello** ## world ".data (by decide)⟩

/-- C10 counterexample: the skip-check path is not obtained by replacing
only the first occurrence of the extension substring — at
`/data/a.mp4/rec.mp4` the code's `str.replace` replaces both
occurrences, so the two computations disagree. -/
theorem C10_counterexample :
    check_existing_path "/data/a.mp4/rec.mp4".data
      ≠ replaceFirst "/data/a.mp4/rec.mp4".data
          (splitext "/data/a.mp4/rec.mp4".data).2 "_summary.md".data := by
  decide

/-- C10 (amended): the skip-check path replaces every occurrence of the
extension substring anywhere in the full path; for a video path whose
directory component also contains the extension string, the inspected
path is not the sibling `<stem>_summary.md` obtained by replacing only
the final extension. -/
theorem C10_amended_substring_check :
    check_existing_path "/data/a.mp4/rec.mp4".data
      = "/data/a_summary.md/rec_summary.md".data ∧
    joinPath (dirname "/data/a.mp4/rec.mp4".data)
        ((splitext (basename "/data/a.mp4/rec.mp4".data)).1
          ++ "_summary.md".data)
      = "/data/a.mp4/rec_summary.md".data ∧
    check_existing_path "/data/a.mp4/rec.mp4".data
      ≠ joinPath (dirname "/data/a.mp4/rec.mp4".data)
          ((splitext (basename "/data/a.mp4/rec.mp4".data)).1
            ++ "_summary.md".data) := by
  exact ⟨by decide, by decide, by decide⟩

/-- In every non-skipped run whose extraction returned a path, the `try`
body leaves `audio_path` assigned, the temporary file on disk, and the
run not skipped. -/
lemma runBody_extract_ok {env : Env} {p a : Str} {fs : FS}
    (hskip : fsExists fs (check_existing_path p) = false)
    (hex : env.extract = .ok a) :
    (runBody env p fs).audio_path = some a ∧
    fsExists (runBody env p fs).fs a = true ∧
    (runBody env p fs).skipped = false := by
  have hcond : ¬ (fsExists fs (check_existing_path p) = true) := by
    rw [hskip]
    simp
  obtain ⟨extract, upload, transcribe, summarize, saveErr, time⟩ := env
  cases hex
  simp only [runBody]
  rw [if_neg hcond]
  have hbase : fsExists (fsWrite fs a []) a = true := by
    simp [fsExists, fsLookup_fsWrite_self]
  cases upload with
  | error m => exact ⟨rfl, hbase, rfl⟩
  | ok _ =>
    cases htr : transcribe_audio transcribe with
    | error m => exact ⟨rfl, hbase, rfl⟩
    | ok tr =>
      cases hsm : summarize_text summarize with
      | error m => exact ⟨rfl, hbase, rfl⟩
      | ok sm =>
        cases saveErr with
        | some m => exact ⟨rfl, hbase, rfl⟩
        | none => exact ⟨rfl, fsExists_fsWrite_of_exists _ _ hbase, rfl⟩

/-- C3: in every run in which audio extraction returned a temporary path
(and the skip check did not fire), the temporary file does not exist in
the final filesystem of the run — whichever later step failed — and the
cleanup block deleted it exactly once. -/
theorem C3_temp_audio_deleted (env : Env) (p a : Str) (fs : FS)
    (hskip : fsExists fs (check_existing_path p) = false)
    (hex : env.extract = .ok a) (ha : a ≠ []) :
    (process_video env p fs).removed = [a] ∧
    fsExists (process_video env p fs).fs a = false := by
  obtain ⟨hap, hfs, _⟩ := runBody_extract_ok hskip hex
  simp only [process_video]
  rw [hap]
  dsimp only
  rw [if_pos (And.intro ha hfs)]
  exact ⟨rfl, by simp [fsExists, fsLookup_fsRemove_self]⟩

/-- Witness for C3: a run that fails at the summarization step still
deletes its temporary audio file. -/
theorem C3_temp_audio_deleted_witness :
    (process_video
        ⟨.ok "/tmp/audio0.wav".data, .ok (), .ok (some "words".data),
          .error "quota exceeded".data, none, ⟨2026, 1, 2, 3, 4, 5⟩⟩
        "/home/dev/Videos/m.mp4".data []).removed
      = ["/tmp/audio0.wav".data] ∧
    fsExists
      (process_video
        ⟨.ok "/tmp/audio0.wav".data, .ok (), .ok (some "words".data),
          .error "quota exceeded".data, none, ⟨2026, 1, 2, 3, 4, 5⟩⟩
        "/home/dev/Videos/m.mp4".data []).fs "/tmp/audio0.wav".data
      = false :=
  C3_temp_audio_deleted _ _ _ _ (by decide) rfl (by decide)

/-- C9: if extraction raises after its temporary file was allocated, the
cleanup block deletes nothing (the pipeline's `audio_path` variable was
never assigned) and the temporary file is leaked; the error is still
caught and logged.  Together with C3 this shows the unconditional
deletion guarantee holds exactly for the runs whose extraction returned
normally. -/
theorem C9_temp_leak_on_extract_failure (env : Env) (p tmp m : Str) (fs : FS)
    (hskip : fsExists fs (check_existing_path p) = false)
    (hex : env.extract = .fail (some tmp) m) :
    (process_video env p fs).removed = [] ∧
    fsExists (process_video env p fs).fs tmp = true ∧
    (process_video env p fs).errorLog = some (basename p, m) := by
  have hcond : ¬ (fsExists fs (check_existing_path p) = true) := by
    rw [hskip]
    simp
  obtain ⟨extract, upload, transcribe, summarize, saveErr, time⟩ := env
  cases hex
  simp only [process_video, runBody]
  rw [if_neg hcond]
  exact ⟨rfl, by simp [fsExists, fsLookup_fsWrite_self], rfl⟩

/-- Witness for C9: a video with no audio stream leaks its `.wav` file. -/
theorem C9_temp_leak_on_extract_failure_witness :
    (process_video
        ⟨.fail (some "/tmp/audio1.wav".data) "no audio stream".data,
          .ok (), .ok (some "t".data), .ok (some "s".data), none,
          ⟨2026, 1, 2, 3, 4, 5⟩⟩
        "/home/dev/Videos/m.mp4".data []).removed = [] ∧
    fsExists
      (process_video
        ⟨.fail (some "/tmp/audio1.wav".data) "no audio stream".data,
          .ok (), .ok (some "t".data), .ok (some "s".data), none,
          ⟨2026, 1, 2, 3, 4, 5⟩⟩
        "/home/dev/Videos/m.mp4".data []).fs "/tmp/audio1.wav".data = true :=
  ⟨(C9_temp_leak_on_extract_failure _ _ _ _ _ (by decide) rfl).1,
   (C9_temp_leak_on_extract_failure _ _ _ _ _ (by decide) rfl).2.1⟩

/-- C5: a failure of any stage — extraction, upload, transcription,
summarization, or saving — is caught at the boundary of `process_video`
and logged together with the file's basename; when every stage succeeds,
nothing is logged.  `process_video` is a total function into `RunResult`,
so no exception value ever reaches the watcher's callback. -/
theorem C5_pipeline_errors_logged (env : Env) (p : Str) (fs : FS)
    (hskip : fsExists fs (check_existing_path p) = false) :
    (∀ alloc m, env.extract = .fail alloc m →
      (process_video env p fs).errorLog = some (basename p, m)) ∧
    (∀ a m, env.extract = .ok a → env.upload = .error m →
      (process_video env p fs).errorLog = some (basename p, m)) ∧
    (∀ a m, env.extract = .ok a → env.upload = .ok () →
      transcribe_audio env.transcribe = .error m →
      (process_video env p fs).errorLog = some (basename p, m)) ∧
    (∀ a tr m, env.extract = .ok a → env.upload = .ok () →
      transcribe_audio env.transcribe = .ok tr →
      summarize_text env.summarize = .error m →
      (process_video env p fs).errorLog = some (basename p, m)) ∧
    (∀ a tr sm m, env.extract = .ok a → env.upload = .ok () →
      transcribe_audio env.transcribe = .ok tr →
      summarize_text env.summarize = .ok sm → env.saveErr = some m →
      (process_video env p fs).errorLog = some (basename p, m)) ∧
    (∀ a tr sm, env.extract = .ok a → env.upload = .ok () →
      transcribe_audio env.transcribe = .ok tr →
      summarize_text env.summarize = .ok sm → env.saveErr = none →
      (process_video env p fs).errorLog = none) := by
  have hcond : ¬ (fsExists fs (check_existing_path p) = true) := by
    rw [hskip]
    simp
  obtain ⟨extract, upload, transcribe, summarize, saveErr, time⟩ := env
  refine ⟨?_, ?_, ?_, ?_, ?_, ?_⟩
  · intro alloc m hex
    subst hex
    simp only [process_video, runBody]
    rw [if_neg hcond]
    cases alloc <;> rfl
  · intro a m hex hup
    subst hex
    subst hup
    simp only [process_video, runBody]
    rw [if_neg hcond]
  · intro a m hex hup htr
    subst hex
    subst hup
    simp only [process_video, runBody]
    rw [if_neg hcond, htr]
  · intro a tr m hex hup htr hsm
    subst hex
    subst hup
    simp only [process_video, runBody]
    rw [if_neg hcond, htr, hsm]
  · intro a tr sm m hex hup htr hsm hsv
    subst hex
    subst hup
    subst hsv
    simp only [process_video, runBody]
    rw [if_neg hcond, htr, hsm]
  · intro a tr sm hex hup htr hsm hsv
    subst hex
    subst hup
    subst hsv
    simp only [process_video, runBody]
    rw [if_neg hcond, htr, hsm]

/-- Witness for C5: an upload failure is logged with the basename. -/
theorem C5_pipeline_errors_logged_witness :
    (process_video
        ⟨.ok "/tmp/audio2.wav".data, .error "network down".data,
          .ok (some "t".data), .ok (some "s".data), none,
          ⟨2026, 1, 2, 3, 4, 5⟩⟩
        "/home/dev/Videos/m.mp4".data []).errorLog
      = some (basename "/home/dev/Videos/m.mp4".data, "network down".data) :=
  (C5_pipeline_errors_logged _ _ _ (by decide)).2.1 _ _ rfl rfl

/-- C2 counterexample: with the claim's own example response
`**bold** ## heading` (containing both `**` and `##`), the file the
pipeline persists still contains the substring `**`, because the
Writer's fixed `**Generated:**` header line reintroduces it. -/
theorem C2_counterexample :
    ("**".data <:+: "**bold** ## heading".data) ∧
    ("##".data <:+: "**bold** ## heading".data) ∧
    ("**".data <:+:
      (fsLookup
        (process_video
          ⟨.ok "/tmp/audio3.wav".data, .ok (), .ok (some "words".data),
            .ok (some "**bold** ## heading".data), none,
            ⟨2026, 1, 2, 3, 4, 5⟩⟩
          "/home/dev/Videos/m.mp4".data []).fs
        (save_summary_path "/home/dev/Videos/m.mp4".data)).getD []) := by
  refine ⟨by decide, by decide, by decide⟩

/-- C2 (amended): for every summarizer response that strips to a
non-empty text, the persisted file is the fixed header followed by the
response stripped and cleaned (`**` removal, then `##` removal); the
appended summary body contains no `##`, but the whole persisted content
always contains `**`, inside the `**Generated:**` header line. -/
theorem C2_amended_persisted_summary (env : Env) (p a resp tr : Str)
    (fs : FS)
    (hskip : fsExists fs (check_existing_path p) = false)
    (hex : env.extract = .ok a) (ha : a ≠ [])
    (hup : env.upload = .ok ())
    (htr : env.transcribe = .ok (some tr)) (htrne : tr ≠ [])
    (hsm : env.summarize = .ok (some resp)) (hresp : pyStrip resp ≠ [])
    (hsave : env.saveErr = none)
    (hne : save_summary_path p ≠ a) :
    fsLookup (process_video env p fs).fs (save_summary_path p)
      = some (save_summary_content
          (pyReplace (pyReplace (pyStrip resp) "**".data []) "##".data [])
          p env.time) ∧
    ¬ ("##".data <:+:
        pyReplace (pyReplace (pyStrip resp) "**".data []) "##".data []) ∧
    ("**".data <:+:
        save_summary_content
          (pyReplace (pyReplace (pyStrip resp) "**".data []) "##".data [])
          p env.time) := by
  have hcond : ¬ (fsExists fs (check_existing_path p) = true) := by
    rw [hskip]
    simp
  have htra : transcribe_audio (.ok (some tr)) = .ok (pyStrip tr) := by
    have hred : transcribe_audio (.ok (some tr))
        = if tr = [] then .error "No transcription received".data
          else .ok (pyStrip tr) := rfl
    rw [hred, if_neg htrne]
  have hsmr : summarize_text (.ok (some resp))
      = .ok (pyReplace (pyReplace (pyStrip resp) "**".data [])
          "##".data []) := by
    have hred : summarize_text (.ok (some resp))
        = if pyStrip resp = [] then .error "No summary generated.".data
          else .ok (pyReplace (pyReplace (pyStrip resp) "**".data [])
            "##".data []) := rfl
    rw [hred, if_neg hresp]
  obtain ⟨extract, upload, transcribe, summarize, saveErr, time⟩ := env
  cases hex
  subst hup
  subst htr
  subst hsm
  subst hsave
  refine ⟨?_, pyReplace_no_cc '#' _, ?_⟩
  · simp only [process_video, runBody]
    rw [if_neg hcond, htra, hsmr]
    dsimp only [save_summary]
    have hbase : fsExists (fsWrite fs a []) a = true := by
      simp [fsExists, fsLookup_fsWrite_self]
    rw [if_pos (And.intro ha (fsExists_fsWrite_of_exists _ _ hbase))]
    dsimp only
    rw [fsLookup_fsRemove_ne _ hne]
    exact fsLookup_fsWrite_self _ _ _
  · have hG : ("**".data : Str) ++ "Generated:** ".data
        = "**Generated:** ".data := by decide
    have h0 : "**".data <:+: ("**Generated:** ".data : Str) :=
      ⟨[], "Generated:** ".data, by rw [List.nil_append, hG]⟩
    exact infx_append_right _ (infx_append_right _ (infx_append_right _
      (infx_append_left _ h0)))

/-- Witness for the amended C2 at the claim's example response. -/
theorem C2_amended_persisted_summary_witness :
    fsLookup
      (process_video
        ⟨.ok "/tmp/audio3.wav".data, .ok (), .ok (some "words".data),
          .ok (some "**bold** ## heading".data), none,
          ⟨2026, 1, 2, 3, 4, 5⟩⟩
        "/home/dev/Videos/m.mp4".data []).fs
      (save_summary_path "/home/dev/Videos/m.mp4".data)
      = some (save_summary_content
          (pyReplace (pyReplace (pyStrip "**bold** ## heading".data)
            "**".data []) "##".data [])
          "/home/dev/Videos/m.mp4".data ⟨2026, 1, 2, 3, 4, 5⟩) :=
  (C2_amended_persisted_summary _ _ _ _ _ _ (by decide) rfl (by decide) rfl
    rfl (by decide) rfl (by decide) rfl (by decide)).1

/-- C8 counterexample: a non-directory creation event for a supported
`.mp4` path produces no pipeline invocation when the path is already in
the in-flight set, so "invokes if and only if not a directory and
supported extension" fails as stated. -/
theorem C8_counterexample :
    pyLower (splitext "/home/dev/Videos/a.mp4".data).2 ∈ SUPPORTED_FORMATS ∧
    (on_created ["/home/dev/Videos/a.mp4".data]
        ⟨false, "/home/dev/Videos/a.mp4".data⟩
        ⟨.ok "/tmp/audio4.wav".data, .ok (), .ok (some "t".data),
          .ok (some "s".data), none, ⟨2026, 1, 2, 3, 4, 5⟩⟩ []).2.2
      = false := by
  refine ⟨by decide, by decide⟩

/-- C8 (amended): the watcher invokes the pipeline if and only if the
event is not a directory event, the path's lowercased extension is in
the supported set, and the path is not already in the in-flight set;
directory events, unsupported extensions, and in-flight duplicates
produce no invocation. -/
theorem C8_amended_guard_iff (S : List Str) (ev : Event) (env : Env)
    (fs : FS) :
    (on_created S ev env fs).2.2 = true ↔
      (ev.is_directory = false ∧
        pyLower (splitext ev.src_path).2 ∈ SUPPORTED_FORMATS ∧
        ev.src_path ∉ S) := by
  obtain ⟨isdir, path⟩ := ev
  cases isdir with
  | true => simp [on_created]
  | false =>
    by_cases hext : pyLower (splitext path).2 ∈ SUPPORTED_FORMATS
    · by_cases hmem : path ∈ S
      · simp [on_created, hext, hmem]
      · simp [on_created, hext, hmem]
    · simp [on_created, hext]

/-- C4 counterexample: two interleaved handler invocations for the same
path can both pass the membership test before either adds the path, so
the path is processed by two concurrent pipeline runs — refuting the
claim's "no path is ever processed by two concurrent pipeline runs". -/
theorem C4_counterexample :
    runActs
      ⟨[], [⟨"/home/dev/Videos/rec.mp4".data, .check⟩,
            ⟨"/home/dev/Videos/rec.mp4".data, .check⟩]⟩
      [.check 0, .check 1, .add 0, .add 1]
      = some ⟨["/home/dev/Videos/rec.mp4".data],
          [⟨"/home/dev/Videos/rec.mp4".data, .running⟩,
           ⟨"/home/dev/Videos/rec.mp4".data, .running⟩]⟩ ∧
    twoRunningSame
      ⟨["/home/dev/Videos/rec.mp4".data],
        [⟨"/home/dev/Videos/rec.mp4".data, .running⟩,
         ⟨"/home/dev/Videos/rec.mp4".data, .running⟩]⟩ = true := by
  refine ⟨by decide, by decide⟩

/-- C4 (amended): in every atomic step of the handler machine, the path
is inserted into the in-flight set in the same step that enters the
pipeline (so before the pipeline body runs) and removed unconditionally
in the step that completes the run; an event whose path is in the set at
its membership test is ignored, and an ignored event never changes state
again.  Under serialized (non-interleaved) handler execution no path is
ever processed by two concurrent pipeline runs — but, as the
counterexample shows, this fails for interleaved executions because the
membership test precedes the insertion. -/
theorem C4_amended_inflight_discipline :
    (∀ (s s' : WatcherState) (i : Nat),
      stepAct s (.add i) = some s' →
      ∃ p, s.threads[i]? = some ⟨p, .sleeping⟩ ∧ p ∈ s'.processing ∧
        s'.threads[i]? = some ⟨p, .running⟩) ∧
    (∀ (s s' : WatcherState) (i : Nat),
      stepAct s (.finish i) = some s' →
      ∃ p, s.threads[i]? = some ⟨p, .running⟩ ∧ p ∉ s'.processing ∧
        s'.threads[i]? = some ⟨p, .finished⟩) ∧
    (∀ (s s' : WatcherState) (i : Nat) (p : Str),
      s.threads[i]? = some ⟨p, .check⟩ → p ∈ s.processing →
      stepAct s (.check i) = some s' →
      s'.threads[i]? = some ⟨p, .ignored⟩) ∧
    (∀ (s s' : WatcherState) (a : HandlerAct) (i : Nat) (p : Str),
      stepAct s a = some s' → s.threads[i]? = some ⟨p, .ignored⟩ →
      s'.threads[i]? = some ⟨p, .ignored⟩) ∧
    (∀ (s u : WatcherState), AtMostOneMid s → SerReach s u →
      twoRunningSame u = false) := by
  refine ⟨?_, ?_, ?_, ?_, ?_⟩
  · intro s s' i h
    obtain ⟨p, hth, hproc, hset⟩ := stepAct_add_inv h
    refine ⟨p, hth, ?_, ?_⟩
    · rw [hproc]
      exact mem_insertPath_self _ _
    · rw [hset]
      exact List.getElem?_set_self (lt_length_of_getElem?_some hth)
  · intro s s' i h
    obtain ⟨p, hth, hproc, hset⟩ := stepAct_finish_inv h
    refine ⟨p, hth, ?_, ?_⟩
    · rw [hproc]
      exact not_mem_erasePath _ _
    · rw [hset]
      exact List.getElem?_set_self (lt_length_of_getElem?_some hth)
  · intro s s' i p hth hmem h
    obtain ⟨q, hq, _, hset⟩ := stepAct_check_inv h
    rw [hth] at hq
    have hqp : q = p := by
      have := Option.some.inj hq
      exact (congrArg HandlerThread.path this).symm
    subst hqp
    rw [hset, List.getElem?_set_self (lt_length_of_getElem?_some hth),
      if_pos hmem]
  · intro s s' a i p h hth
    exact stepAct_ignored_stays h hth
  · intro s u hs hr
    exact twoRunningSame_eq_false (serReach_amo hr hs)

/-- Witness for the amended C4: a duplicate event arriving while its
path is in flight is moved to `ignored`, and a serialized run never has
two concurrent runs. -/
theorem C4_amended_inflight_discipline_witness :
    (stepAct
        ⟨["/home/dev/Videos/rec.mp4".data],
          [⟨"/home/dev/Videos/rec.mp4".data, .check⟩]⟩
        (.check 0)).map (fun s => s.threads[0]?)
      = some (some ⟨"/home/dev/Videos/rec.mp4".data, .ignored⟩) ∧
    twoRunningSame ⟨[], []⟩ = false := by
  constructor
  · have hstep : stepAct
        ⟨["/home/dev/Videos/rec.mp4".data],
          [⟨"/home/dev/Videos/rec.mp4".data, .check⟩]⟩
        (.check 0)
        = some ⟨["/home/dev/Videos/rec.mp4".data],
            [⟨"/home/dev/Videos/rec.mp4".data, .ignored⟩]⟩ := by decide
    have hth := C4_amended_inflight_discipline.2.2.1
      ⟨["/home/dev/Videos/rec.mp4".data],
        [⟨"/home/dev/Videos/rec.mp4".data, .check⟩]⟩
      ⟨["/home/dev/Videos/rec.mp4".data],
        [⟨"/home/dev/Videos/rec.mp4".data, .ignored⟩]⟩
      0 "/home/dev/Videos/rec.mp4".data (by decide) (by decide) hstep
    rw [hstep]
    rw [Option.map_some']
    rw [hth]
  · exact C4_amended_inflight_discipline.2.2.2.2 ⟨[], []⟩ ⟨[], []⟩
      (fun i j t u hi _ _ _ => by simp at hi) (SerReach.refl _)

end MeetingSummary
